import Mathlib

/-
Shallow embedding of `src/dsp/dct/fast-dct-fft.cpp` (ei::dct::transform and
ei::dct::inverse_transform, the FFT-based unscaled DCT-II / DCT-III pair).

The caller's vector and the scratch buffers are modelled as total functions
`ℕ → ℝ` (C arrays accessed through pointers, so out-of-range indices are
expressible).  Machine `float` arithmetic is idealised as exact real
arithmetic.  Allocation outcomes and the status of the external real FFT are
supplied by an environment record, so every control path of the C code is a
value of the model.  Besides the final status and vector, each transform
returns the ordered list of observable events of the call (allocations,
releases, writes to the caller's vector, the FFT invocation), which is what
the ordering and resource-balance properties are stated against.
-/

namespace EiDct

/-- Success status: `transform` returns the literal `0` and
`inverse_transform` returns `ei::EIDSP_OK`, which the spec identifies as the
success status; `returntypes.hpp` is outside this core, and the spec only
fixes that success is distinct from the error codes.  Modelled as `0`. -/
def EIDSP_OK : Int := 0

/-- Modelled from the spec: `ei::EIDSP_OUT_OF_MEM` from `returntypes.hpp`
(not part of this core), the out-of-memory status; a fixed nonzero code. -/
def EIDSP_OUT_OF_MEM : Int := -1002

/-- The scratch resources a single call can acquire: the two KissFFT
buffers and (inverse path only) the KissFFT configuration. -/
inductive AllocName where
  | fftDataOut
  | fftDataIn
  | fftCfg
  deriving DecidableEq

/-- Observable events of one transform call, in program order:
successful scratch allocations (`ei_dsp_calloc` / `kiss_fft_alloc`),
releases (`ei_dsp_free`), the `ei_dsp_register_alloc` bookkeeping call,
stores into the caller's vector, and the FFT invocation. -/
inductive Event where
  | allocEv : AllocName → Event
  | freeEv : AllocName → Event
  | registerEv : Event
  | vecWriteEv : ℕ → Event
  | fftCallEv : Event
  deriving DecidableEq

/-- Store into a buffer modelled as a function: `buf[i] = x`. -/
def upd {α : Type} (buf : ℕ → α) (i : ℕ) (x : α) : ℕ → α :=
  fun j => if j = i then x else buf j

/-- `forLoop f n a` runs `a := f i a` for `i = 0, 1, ..., n-1`, the shape of
every `for (size_t i = 0; i < n; i++)` loop in the source. -/
def forLoop {α : Type} (f : ℕ → α → α) : ℕ → α → α
  | 0, a => a
  | n + 1, a => f n (forLoop f n a)

/-- The phase angle `i * M_PI / (len * 2)` used by both transforms. -/
noncomputable def angle (len i : ℕ) : ℝ :=
  (i : ℝ) * Real.pi / ((len : ℝ) * 2)

/-- Modelled from the spec: the external real forward FFT
(`ei::numpy::rfft`, not part of this core), producing bins `0 .. len/2` of
the standard DFT with kernel `exp (-2*pi*I*k*n/len)` of a real input.
Bin `k` is returned as the pair (real part, imaginary part). -/
noncomputable def rfftBin (x : ℕ → ℝ) (len k : ℕ) : ℝ × ℝ :=
  (∑ n ∈ Finset.range len, x n * Real.cos (2 * Real.pi * (k : ℝ) * (n : ℝ) / (len : ℝ)),
   -(∑ n ∈ Finset.range len, x n * Real.sin (2 * Real.pi * (k : ℝ) * (n : ℝ) / (len : ℝ))))

/-- Modelled from the spec: the external complex forward FFT (`kiss_fft`
allocated with `is_inverse_fft = 0`, not part of this core): the standard
DFT with kernel `exp (-2*pi*I*k*n/len)` on complex input given as
(real, imaginary) pairs. -/
noncomputable def cfftBin (x : ℕ → ℝ × ℝ) (len k : ℕ) : ℝ × ℝ :=
  (∑ n ∈ Finset.range len,
      ((x n).1 * Real.cos (2 * Real.pi * (k : ℝ) * (n : ℝ) / (len : ℝ))
        + (x n).2 * Real.sin (2 * Real.pi * (k : ℝ) * (n : ℝ) / (len : ℝ))),
   ∑ n ∈ Finset.range len,
      ((x n).2 * Real.cos (2 * Real.pi * (k : ℝ) * (n : ℝ) / (len : ℝ))
        - (x n).1 * Real.sin (2 * Real.pi * (k : ℝ) * (n : ℝ) / (len : ℝ))))

/-- Lines 51-58 of fast-dct-fft.cpp: the real FFT input buffer built from the
caller's vector.  `fft_data_in` is calloc-zeroed; the loop interleaves
`fft_data_in[i] = vector[i*2]`, `fft_data_in[len-1-i] = vector[i*2+1]` for
`i < len/2`, and for odd `len` the middle slot gets the last sample. -/
def fwdPreprocess (v : ℕ → ℝ) (len : ℕ) : ℕ → ℝ :=
  let halfLen := len / 2
  let buf := forLoop
    (fun i b => upd (upd b i (v (2 * i))) (len - 1 - i) (v (2 * i + 1)))
    halfLen (fun _ => 0)
  if len % 2 = 1 then upd buf halfLen (v (len - 1)) else buf

/-- Line 69 of fast-dct-fft.cpp: the value stored into `vector[i]` after the
real FFT, `fft_data_out[i].r * cos(temp) + fft_data_out[i].i * sin(temp)`
with `temp = i * M_PI / (len * 2)`. -/
noncomputable def fwdCoef (v : ℕ → ℝ) (len i : ℕ) : ℝ :=
  (rfftBin (fwdPreprocess v len) len i).1 * Real.cos (angle len i)
    + (rfftBin (fwdPreprocess v len) len i).2 * Real.sin (angle len i)

/-- Environment of one `transform` call: whether each `ei_dsp_calloc`
returns a buffer, and the status code returned by `ei::numpy::rfft`. -/
structure FwdEnv where
  allocOut : Bool
  allocIn : Bool
  rfftStatus : Int

/-- Environment of one `inverse_transform` call: whether each
`ei_dsp_calloc` and the `kiss_fft_alloc` succeed. -/
structure InvEnv where
  allocOut : Bool
  allocIn : Bool
  allocCfg : Bool

/-- Result of one call: the returned status, the caller's vector after the
call, and the ordered event list of the call. -/
structure TResult where
  status : Int
  vec : ℕ → ℝ
  events : List Event

/-- The all-successful forward environment (allocations succeed, rfft
returns 0). -/
def fenvOK : FwdEnv := ⟨true, true, 0⟩

/-- The all-successful inverse environment. -/
def ienvOK : InvEnv := ⟨true, true, true⟩

/-- The length-2 vector with entries `a`, `b` (all later slots read `b`,
which a length-2 call never touches). -/
def v2 (a b : ℝ) : ℕ → ℝ := fun n => if n = 0 then a else b

/-- Lines 33-77 of fast-dct-fft.cpp: `ei::dct::transform` (DCT type II,
unscaled).  Allocates the complex output and real input scratch buffers,
interleaves the vector into `fft_data_in`, runs the real FFT, and on status
0 stores the phase-combined bins into `vector[i]` for `i < len/2 + 1`,
releasing the scratch buffers on every exit path. -/
noncomputable def transform (v : ℕ → ℝ) (len : ℕ) (env : FwdEnv) : TResult :=
  if env.allocOut = false then
    { status := EIDSP_OUT_OF_MEM, vec := v, events := [] }
  else if env.allocIn = false then
    { status := EIDSP_OUT_OF_MEM, vec := v
      events := [Event.allocEv AllocName.fftDataOut, Event.freeEv AllocName.fftDataOut] }
  else if env.rfftStatus ≠ 0 then
    { status := env.rfftStatus, vec := v
      events := [Event.allocEv AllocName.fftDataOut, Event.allocEv AllocName.fftDataIn,
        Event.fftCallEv, Event.freeEv AllocName.fftDataIn, Event.freeEv AllocName.fftDataOut] }
  else
    let p := forLoop
      (fun i s => (upd s.1 i (fwdCoef v len i), s.2 ++ [Event.vecWriteEv i]))
      (len / 2 + 1) (v, ([] : List Event))
    { status := 0, vec := p.1
      events := [Event.allocEv AllocName.fftDataOut, Event.allocEv AllocName.fftDataIn,
          Event.fftCallEv]
        ++ p.2 ++ [Event.freeEv AllocName.fftDataIn, Event.freeEv AllocName.fftDataOut] }

/-- Lines 107-110 of fast-dct-fft.cpp: the caller's vector after the
`if (len > 0) vector[0] /= 2;` pre-scaling step. -/
noncomputable def invHalved (v : ℕ → ℝ) (len : ℕ) : ℕ → ℝ :=
  if 0 < len then upd v 0 (v 0 / 2) else v

/-- Lines 112-116 of fast-dct-fft.cpp: the complex FFT input buffer
(calloc-zeroed) after the pre-weighting loop
`fft_data_in[i].r = vector[i] * cos(temp); fft_data_in[i].i *= -sin(temp);`
read from the already-halved vector. -/
noncomputable def invPreprocess (v : ℕ → ℝ) (len : ℕ) : ℕ → ℝ × ℝ :=
  forLoop
    (fun i b => upd b i
      (invHalved v len i * Real.cos (angle len i),
       (b i).2 * (-Real.sin (angle len i))))
    len (fun _ => ((0 : ℝ), (0 : ℝ)))

/-- The complex FFT output bins of `inverse_transform`
(`fft_data_out[k]` at line 118). -/
noncomputable def invBins (v : ℕ → ℝ) (len k : ℕ) : ℝ × ℝ :=
  cfftBin (invPreprocess v len) len k

/-- Lines 79-136 of fast-dct-fft.cpp: `ei::dct::inverse_transform` (DCT type
III, unscaled).  Allocates the two complex scratch buffers and the KissFFT
configuration, registers the configuration footprint, halves `vector[0]`,
builds the phase-weighted complex input, runs `kiss_fft` (whose result is
not checked), de-interleaves the real parts of the output back into the
vector, releases everything and returns `EIDSP_OK`. -/
noncomputable def inverse_transform (v : ℕ → ℝ) (len : ℕ) (env : InvEnv) : TResult :=
  if env.allocOut = false then
    { status := EIDSP_OUT_OF_MEM, vec := v, events := [] }
  else if env.allocIn = false then
    { status := EIDSP_OUT_OF_MEM, vec := v
      events := [Event.allocEv AllocName.fftDataOut, Event.freeEv AllocName.fftDataOut] }
  else if env.allocCfg = false then
    { status := EIDSP_OUT_OF_MEM, vec := v
      events := [Event.allocEv AllocName.fftDataOut, Event.allocEv AllocName.fftDataIn,
        Event.freeEv AllocName.fftDataIn, Event.freeEv AllocName.fftDataOut] }
  else
    let halfLen := len / 2
    let p := forLoop
      (fun i s =>
        (upd (upd s.1 (2 * i) (invBins v len i).1) (2 * i + 1) (invBins v len (len - 1 - i)).1,
         s.2 ++ [Event.vecWriteEv (2 * i), Event.vecWriteEv (2 * i + 1)]))
      halfLen (invHalved v len, ([] : List Event))
    let p2 := if len % 2 = 1 then
        (upd p.1 (len - 1) (invBins v len halfLen).1, p.2 ++ [Event.vecWriteEv (len - 1)])
      else p
    { status := EIDSP_OK, vec := p2.1
      events := [Event.allocEv AllocName.fftDataOut, Event.allocEv AllocName.fftDataIn,
          Event.allocEv AllocName.fftCfg, Event.registerEv]
        ++ (if 0 < len then [Event.vecWriteEv 0] else [])
        ++ [Event.fftCallEv]
        ++ p2.2
        ++ [Event.freeEv AllocName.fftCfg, Event.freeEv AllocName.fftDataIn,
          Event.freeEv AllocName.fftDataOut] }

/-- Reference unscaled DCT-II, written from the spec's closed form
(Testable Properties: `Σ x[n]·cos(π/N·(n+0.5)·k)`); used to compare the
implementation's output against the specified result. -/
noncomputable def dct2Ref (x : ℕ → ℝ) (len k : ℕ) : ℝ :=
  ∑ n ∈ Finset.range len, x n * Real.cos (Real.pi / (len : ℝ) * ((n : ℝ) + 1 / 2) * (k : ℝ))

/-- Whether an event is a store into the caller's vector. -/
def isVecWrite : Event → Bool
  | Event.vecWriteEv _ => true
  | _ => false

/-- The events of a call that precede its (first) FFT invocation. -/
def preFFT (τ : List Event) : List Event :=
  τ.takeWhile fun e => decide (e ≠ Event.fftCallEv)

/-- No event of the list is a store into the caller's vector. -/
def noVecWrite (τ : List Event) : Prop :=
  ∀ e ∈ τ, isVecWrite e = false

instance (τ : List Event) : Decidable (noVecWrite τ) :=
  List.decidableBAll (fun e => isVecWrite e = false) τ

/-- How many successful allocations of resource `n` the event list holds. -/
def allocCount (τ : List Event) (n : AllocName) : ℕ :=
  τ.countP fun e => decide (e = Event.allocEv n)

/-- How many releases of resource `n` the event list holds. -/
def freeCount (τ : List Event) (n : AllocName) : ℕ :=
  τ.countP fun e => decide (e = Event.freeEv n)

/-- Every resource allocated in the call is released in it (per-name
alloc/free counts agree). -/
def balanced (τ : List Event) : Prop :=
  ∀ n : AllocName, allocCount τ n = freeCount τ n

lemma upd_self {α : Type} (buf : ℕ → α) (i : ℕ) (x : α) : upd buf i x i = x := by
  simp [upd]

lemma upd_ne {α : Type} (buf : ℕ → α) (i j : ℕ) (x : α) (h : j ≠ i) :
    upd buf i x j = buf j := by
  simp [upd, h]

/-- Characterization of the interleaving loop of `fwdPreprocess` stopped
after `m` iterations: slot `j` holds `vector[2j]` for `j < m`, holds
`vector[2(len-1-j)+1]` for the top `m` slots, and is still zero elsewhere. -/
lemma fwdPre_loop_spec (v : ℕ → ℝ) (len m : ℕ) (hm : m ≤ len / 2) : ∀ j,
    forLoop (fun i b => upd (upd b i (v (2 * i))) (len - 1 - i) (v (2 * i + 1))) m
        (fun _ => 0) j
      = if j < m then v (2 * j)
        else if len - m ≤ j ∧ j < len then v (2 * (len - 1 - j) + 1)
        else 0 := by
  induction m with
  | zero =>
      intro j
      show (0 : ℝ) = _
      split_ifs <;> first | rfl | omega
  | succ k ih =>
      intro j
      have hk : k ≤ len / 2 := by omega
      have hlen : 2 * (k + 1) ≤ len := by omega
      rw [forLoop]
      simp only [upd]
      rw [ih hk j]
      split_ifs <;> first | rfl | omega | (congr 1; omega)

/-- Characterization of the forward post-FFT write loop stopped after `m`
iterations: slots below `m` hold the combined coefficients, the rest of the
caller's vector is untouched, and the loop appended exactly the writes
`0, ..., m-1` to the event list. -/
lemma fwdPost_loop_spec (v : ℕ → ℝ) (len : ℕ) (v0 : ℕ → ℝ) (e0 : List Event) (m : ℕ) :
    forLoop (fun i s => (upd s.1 i (fwdCoef v len i), s.2 ++ [Event.vecWriteEv i])) m (v0, e0)
      = (fun j => if j < m then fwdCoef v len j else v0 j,
         e0 ++ (List.range m).map Event.vecWriteEv) := by
  induction m with
  | zero => simp [forLoop]
  | succ k ih =>
      rw [forLoop, ih]
      refine Prod.ext ?_ ?_
      · funext j
        simp only [upd]
        split_ifs <;> first | rfl | omega | (congr 1; omega)
      · simp [List.range_succ]

/-- Characterization of the pre-weighting loop of `invPreprocess` stopped
after `m` iterations: slot `j < m` holds the phase-weighted (already halved)
sample with an exactly zero imaginary part, later slots are still the
calloc zeros. -/
lemma invPre_loop_spec (v : ℕ → ℝ) (len m : ℕ) : ∀ j,
    forLoop (fun i b => upd b i
        (invHalved v len i * Real.cos (angle len i),
         (b i).2 * (-Real.sin (angle len i)))) m (fun _ => ((0 : ℝ), (0 : ℝ))) j
      = if j < m then (invHalved v len j * Real.cos (angle len j), 0) else (0, 0) := by
  induction m with
  | zero =>
      intro j
      simp [forLoop]
  | succ k ih =>
      intro j
      rw [forLoop]
      simp only [upd]
      rw [ih k, ih j]
      by_cases hj : j = k
      · subst hj
        simp
      · simp only [if_neg hj]
        split_ifs <;> first | rfl | omega

/-- Characterization of the de-interleaving loop of `inverse_transform`
stopped after `m` iterations: slots below `2m` hold the real parts of the
FFT output in de-interleaved order, the rest is untouched. -/
lemma invPost_loop_fst (v : ℕ → ℝ) (len : ℕ) (v0 : ℕ → ℝ) (e0 : List Event) (m : ℕ) : ∀ j,
    (forLoop (fun i s =>
        (upd (upd s.1 (2 * i) (invBins v len i).1) (2 * i + 1) (invBins v len (len - 1 - i)).1,
         s.2 ++ [Event.vecWriteEv (2 * i), Event.vecWriteEv (2 * i + 1)])) m (v0, e0)).1 j
      = if j < 2 * m then
          (if j % 2 = 0 then (invBins v len (j / 2)).1 else (invBins v len (len - 1 - j / 2)).1)
        else v0 j := by
  induction m with
  | zero =>
      intro j
      simp [forLoop]
  | succ k ih =>
      intro j
      rw [forLoop]
      simp only [upd]
      rw [ih j]
      by_cases h1 : j = 2 * k + 1
      · subst h1
        have e1 : ¬ ((2 * k + 1) % 2 = 0) := by omega
        have e2 : (2 * k + 1) / 2 = k := by omega
        have e3 : 2 * k + 1 < 2 * (k + 1) := by omega
        simp [e1, e2, e3]
      · by_cases h2 : j = 2 * k
        · subst h2
          have e0 : ¬ (2 * k = 2 * k + 1) := by omega
          have e1 : (2 * k) % 2 = 0 := by omega
          have e2 : (2 * k) / 2 = k := by omega
          have e3 : 2 * k < 2 * (k + 1) := by omega
          simp [e0, e1, e2, e3]
        · rw [if_neg h1, if_neg h2]
          by_cases h3 : j < 2 * k
          · rw [if_pos h3, if_pos (show j < 2 * (k + 1) by omega)]
          · rw [if_neg h3, if_neg (show ¬ j < 2 * (k + 1) by omega)]

/-- On the all-successful path, the vector returned by `transform` holds the
combined coefficients in the first `len/2 + 1` slots and the original
entries elsewhere. -/
lemma transform_success_vec (v : ℕ → ℝ) (len : ℕ) (env : FwdEnv)
    (h1 : env.allocOut = true) (h2 : env.allocIn = true) (h3 : env.rfftStatus = 0) (j : ℕ) :
    (transform v len env).vec j = if j < len / 2 + 1 then fwdCoef v len j else v j := by
  unfold transform
  rw [if_neg (show ¬ env.allocOut = false by rw [h1]; simp),
      if_neg (show ¬ env.allocIn = false by rw [h2]; simp),
      if_neg (show ¬ env.rfftStatus ≠ 0 by rw [h3]; simp)]
  dsimp only
  rw [fwdPost_loop_spec]

/-- On the all-successful path, the event list of `transform` is the two
allocations, the FFT call, the writes `0, ..., len/2`, then the two
releases. -/
lemma transform_success_events (v : ℕ → ℝ) (len : ℕ) (env : FwdEnv)
    (h1 : env.allocOut = true) (h2 : env.allocIn = true) (h3 : env.rfftStatus = 0) :
    (transform v len env).events
      = [Event.allocEv AllocName.fftDataOut, Event.allocEv AllocName.fftDataIn, Event.fftCallEv]
        ++ (List.range (len / 2 + 1)).map Event.vecWriteEv
        ++ [Event.freeEv AllocName.fftDataIn, Event.freeEv AllocName.fftDataOut] := by
  unfold transform
  rw [if_neg (show ¬ env.allocOut = false by rw [h1]; simp),
      if_neg (show ¬ env.allocIn = false by rw [h2]; simp),
      if_neg (show ¬ env.rfftStatus ≠ 0 by rw [h3]; simp)]
  dsimp only
  rw [fwdPost_loop_spec]
  rfl

/-- On the all-successful path, the vector returned by `inverse_transform`:
the odd middle slot, the de-interleaved slots below `2*(len/2)`, and the
(halved) original entries elsewhere. -/
lemma inverse_success_vec (v : ℕ → ℝ) (len : ℕ) (env : InvEnv)
    (h1 : env.allocOut = true) (h2 : env.allocIn = true) (h3 : env.allocCfg = true) (j : ℕ) :
    (inverse_transform v len env).vec j
      = if len % 2 = 1 ∧ j = len - 1 then (invBins v len (len / 2)).1
        else if j < 2 * (len / 2) then
          (if j % 2 = 0 then (invBins v len (j / 2)).1
           else (invBins v len (len - 1 - j / 2)).1)
        else invHalved v len j := by
  unfold inverse_transform
  rw [if_neg (show ¬ env.allocOut = false by rw [h1]; simp),
      if_neg (show ¬ env.allocIn = false by rw [h2]; simp),
      if_neg (show ¬ env.allocCfg = false by rw [h3]; simp)]
  dsimp only
  by_cases hodd : len % 2 = 1
  · rw [if_pos hodd]
    dsimp only
    by_cases hj : j = len - 1
    · subst hj
      rw [upd_self, if_pos ⟨hodd, rfl⟩]
    · rw [upd_ne _ _ _ _ hj, invPost_loop_fst,
        if_neg (show ¬ (len % 2 = 1 ∧ j = len - 1) from fun hc => hj hc.2)]
  · rw [if_neg hodd]
    rw [invPost_loop_fst,
        if_neg (show ¬ (len % 2 = 1 ∧ j = len - 1) from fun hc => hodd hc.1)]

/-- The first-allocation-failure exit of `transform` (line 40). -/
lemma transform_allocOut_fail (v : ℕ → ℝ) (len : ℕ) (env : FwdEnv)
    (h : env.allocOut = false) :
    transform v len env = ⟨EIDSP_OUT_OF_MEM, v, []⟩ := by
  unfold transform
  rw [if_pos h]

/-- The second-allocation-failure exit of `transform` (lines 44-48). -/
lemma transform_allocIn_fail (v : ℕ → ℝ) (len : ℕ) (env : FwdEnv)
    (h1 : env.allocOut = true) (h : env.allocIn = false) :
    transform v len env = ⟨EIDSP_OUT_OF_MEM, v,
      [Event.allocEv AllocName.fftDataOut, Event.freeEv AllocName.fftDataOut]⟩ := by
  unfold transform
  rw [if_neg (show ¬ env.allocOut = false by rw [h1]; simp), if_pos h]

/-- The rfft-failure exit of `transform` (lines 60-65). -/
lemma transform_rfft_fail (v : ℕ → ℝ) (len : ℕ) (env : FwdEnv)
    (h1 : env.allocOut = true) (h2 : env.allocIn = true) (h3 : env.rfftStatus ≠ 0) :
    transform v len env = ⟨env.rfftStatus, v,
      [Event.allocEv AllocName.fftDataOut, Event.allocEv AllocName.fftDataIn, Event.fftCallEv,
       Event.freeEv AllocName.fftDataIn, Event.freeEv AllocName.fftDataOut]⟩ := by
  unfold transform
  rw [if_neg (show ¬ env.allocOut = false by rw [h1]; simp),
      if_neg (show ¬ env.allocIn = false by rw [h2]; simp), if_pos h3]

/-- The first-allocation-failure exit of `inverse_transform` (line 86). -/
lemma inverse_allocOut_fail (v : ℕ → ℝ) (len : ℕ) (env : InvEnv)
    (h : env.allocOut = false) :
    inverse_transform v len env = ⟨EIDSP_OUT_OF_MEM, v, []⟩ := by
  unfold inverse_transform
  rw [if_pos h]

/-- The second-allocation-failure exit of `inverse_transform` (lines 91-95). -/
lemma inverse_allocIn_fail (v : ℕ → ℝ) (len : ℕ) (env : InvEnv)
    (h1 : env.allocOut = true) (h : env.allocIn = false) :
    inverse_transform v len env = ⟨EIDSP_OUT_OF_MEM, v,
      [Event.allocEv AllocName.fftDataOut, Event.freeEv AllocName.fftDataOut]⟩ := by
  unfold inverse_transform
  rw [if_neg (show ¬ env.allocOut = false by rw [h1]; simp), if_pos h]

/-- The configuration-allocation-failure exit of `inverse_transform`
(lines 100-104). -/
lemma inverse_allocCfg_fail (v : ℕ → ℝ) (len : ℕ) (env : InvEnv)
    (h1 : env.allocOut = true) (h2 : env.allocIn = true) (h : env.allocCfg = false) :
    inverse_transform v len env = ⟨EIDSP_OUT_OF_MEM, v,
      [Event.allocEv AllocName.fftDataOut, Event.allocEv AllocName.fftDataIn,
       Event.freeEv AllocName.fftDataIn, Event.freeEv AllocName.fftDataOut]⟩ := by
  unfold inverse_transform
  rw [if_neg (show ¬ env.allocOut = false by rw [h1]; simp),
      if_neg (show ¬ env.allocIn = false by rw [h2]; simp), if_pos h]

/-- C5: In `transform`, the real FFT input buffer is built from the caller's
vector by interleaving: for every `i < len/2`, slot `i` receives
`vector[2i]` and slot `len-1-i` receives `vector[2i+1]`; when `len` is odd,
slot `len/2` additionally receives `vector[len-1]`. -/
theorem fwdPreprocess_interleave (v : ℕ → ℝ) (len : ℕ) :
    (∀ i, i < len / 2 →
        fwdPreprocess v len i = v (2 * i)
          ∧ fwdPreprocess v len (len - 1 - i) = v (2 * i + 1))
    ∧ (len % 2 = 1 → fwdPreprocess v len (len / 2) = v (len - 1)) := by
  have hbase := fwdPre_loop_spec v len (len / 2) (le_refl _)
  constructor
  · intro i hi
    constructor
    · unfold fwdPreprocess
      by_cases hodd : len % 2 = 1
      · rw [if_pos hodd, upd_ne _ _ _ _ (show i ≠ len / 2 by omega), hbase i, if_pos hi]
      · rw [if_neg hodd, hbase i, if_pos hi]
    · unfold fwdPreprocess
      have hcond1 : ¬ (len - 1 - i < len / 2) := by omega
      have hcond2 : len - len / 2 ≤ len - 1 - i ∧ len - 1 - i < len := by omega
      have harg : 2 * (len - 1 - (len - 1 - i)) + 1 = 2 * i + 1 := by omega
      by_cases hodd : len % 2 = 1
      · rw [if_pos hodd, upd_ne _ _ _ _ (show len - 1 - i ≠ len / 2 by omega),
            hbase, if_neg hcond1, if_pos hcond2, harg]
      · rw [if_neg hodd, hbase, if_neg hcond1, if_pos hcond2, harg]
  · intro hodd
    unfold fwdPreprocess
    rw [if_pos hodd, upd_self]

/-- C5 witness: the interleaving read off at `len = 5` on the vector whose
entry `n` is the real number `n`. -/
theorem fwdPreprocess_interleave_witness :
    (∀ i, i < 5 / 2 →
        fwdPreprocess (fun n : ℕ => (n : ℝ)) 5 i = ((2 * i : ℕ) : ℝ)
          ∧ fwdPreprocess (fun n : ℕ => (n : ℝ)) 5 (5 - 1 - i) = ((2 * i + 1 : ℕ) : ℝ))
    ∧ (5 % 2 = 1 → fwdPreprocess (fun n : ℕ => (n : ℝ)) 5 (5 / 2) = ((5 - 1 : ℕ) : ℝ)) :=
  fwdPreprocess_interleave (fun n : ℕ => (n : ℝ)) 5

/-- C9: In `inverse_transform`, for every `i < len` the complex FFT input at
slot `i` has real part `vector[i] * cos(i*pi/(2*len))` (with `vector[0]`
already halved) and an imaginary part that is exactly zero — the
calloc-zeroed value multiplied by `-sin(i*pi/(2*len))`. -/
theorem invPreprocess_phase_zero_imag (v : ℕ → ℝ) (len i : ℕ) (hi : i < len) :
    invPreprocess v len i = (invHalved v len i * Real.cos (angle len i), 0) := by
  unfold invPreprocess
  rw [invPre_loop_spec, if_pos hi]

/-- C9 witness: the phase-weighted input slot at `len = 3`, `i = 2`. -/
theorem invPreprocess_phase_zero_imag_witness :
    2 < 3 ∧ invPreprocess (fun _ => (1 : ℝ)) 3 2
      = (invHalved (fun _ => (1 : ℝ)) 3 2 * Real.cos (angle 3 2), 0) :=
  ⟨by decide, invPreprocess_phase_zero_imag (fun _ => (1 : ℝ)) 3 2 (by decide)⟩

/-- C10: once the two complex scratch allocations and the FFT configuration
allocation succeed, `inverse_transform` always returns `EIDSP_OK`: the
`kiss_fft` call has no checked result, so no FFT-failure code can be
propagated. -/
theorem inverse_always_ok (v : ℕ → ℝ) (len : ℕ) (env : InvEnv)
    (h1 : env.allocOut = true) (h2 : env.allocIn = true) (h3 : env.allocCfg = true) :
    (inverse_transform v len env).status = EIDSP_OK := by
  unfold inverse_transform
  rw [if_neg (show ¬ env.allocOut = false by rw [h1]; simp),
      if_neg (show ¬ env.allocIn = false by rw [h2]; simp),
      if_neg (show ¬ env.allocCfg = false by rw [h3]; simp)]

/-- C10 witness: a successful inverse call at `len = 4` returns `EIDSP_OK`. -/
theorem inverse_always_ok_witness :
    (inverse_transform (fun _ => (0 : ℝ)) 4 ienvOK).status = EIDSP_OK :=
  inverse_always_ok (fun _ => (0 : ℝ)) 4 ienvOK rfl rfl rfl

/-- C3 (amended): in `transform` every write to the caller's vector occurs
strictly after the real FFT call, so when the FFT reports a nonzero status
the caller's vector is returned untouched.  (In `inverse_transform` the
DC-halving write precedes the FFT call — see the counterexample — but that
FFT reports no failure.) -/
theorem transform_writes_after_fft (v : ℕ → ℝ) (len : ℕ) (env : FwdEnv) :
    noVecWrite (preFFT (transform v len env).events)
    ∧ (env.rfftStatus ≠ 0 → (transform v len env).vec = v) := by
  obtain ⟨ao, ai, r⟩ := env
  cases ao with
  | false =>
      rw [transform_allocOut_fail v len _ rfl]
      refine ⟨?_, fun _ => rfl⟩
      show noVecWrite (preFFT ([] : List Event))
      decide
  | true =>
      cases ai with
      | false =>
          rw [transform_allocIn_fail v len _ rfl rfl]
          refine ⟨?_, fun _ => rfl⟩
          show noVecWrite (preFFT
            [Event.allocEv AllocName.fftDataOut, Event.freeEv AllocName.fftDataOut])
          decide
      | true =>
          by_cases hr : r = 0
          · subst hr
            constructor
            · rw [transform_success_events v len _ rfl rfl rfl]
              have hpre : preFFT
                  ([Event.allocEv AllocName.fftDataOut, Event.allocEv AllocName.fftDataIn,
                    Event.fftCallEv]
                    ++ (List.range (len / 2 + 1)).map Event.vecWriteEv
                    ++ [Event.freeEv AllocName.fftDataIn, Event.freeEv AllocName.fftDataOut])
                  = [Event.allocEv AllocName.fftDataOut, Event.allocEv AllocName.fftDataIn] :=
                rfl
              rw [hpre]
              decide
            · intro h
              exact absurd rfl h
          · rw [transform_rfft_fail v len _ rfl rfl hr]
            refine ⟨?_, fun _ => rfl⟩
            show noVecWrite (preFFT
              [Event.allocEv AllocName.fftDataOut, Event.allocEv AllocName.fftDataIn,
               Event.fftCallEv, Event.freeEv AllocName.fftDataIn,
               Event.freeEv AllocName.fftDataOut])
            decide

/-- C3 witness: the forward properties read off at `len = 3` with an
injected FFT failure status 5. -/
theorem transform_writes_after_fft_witness :
    noVecWrite (preFFT (transform (fun _ => (0 : ℝ)) 3 ⟨true, true, 5⟩).events)
    ∧ (transform (fun _ => (0 : ℝ)) 3 ⟨true, true, 5⟩).vec = (fun _ => (0 : ℝ)) :=
  ⟨(transform_writes_after_fft (fun _ => (0 : ℝ)) 3 ⟨true, true, 5⟩).1,
   (transform_writes_after_fft (fun _ => (0 : ℝ)) 3 ⟨true, true, 5⟩).2 (by decide)⟩

/-- C3 counterexample: in `inverse_transform` at `len = 1` (all allocations
succeeding) the DC-halving write to `vector[0]` appears in the event list
strictly before the FFT call, so not every write occurs after the FFT. -/
theorem inverse_write_before_fft :
    ¬ noVecWrite (preFFT (inverse_transform (fun _ => (1 : ℝ)) 1 ienvOK).events) := by
  decide

/-- C4: at `len = 0` the post-FFT loop of `transform` still runs once
(`i < 0/2 + 1 = 1`) and stores into `vector[0]` — an out-of-bounds write for
a zero-length vector — although the call returns the success status; the
inverse transform at `len = 0` really is a no-op on the vector and returns
success. -/
theorem len0_not_noop :
    (transform (fun _ => (0 : ℝ)) 0 fenvOK).status = 0
    ∧ Event.vecWriteEv 0 ∈ (transform (fun _ => (0 : ℝ)) 0 fenvOK).events
    ∧ (inverse_transform (fun _ => (0 : ℝ)) 0 ienvOK).status = EIDSP_OK
    ∧ noVecWrite (inverse_transform (fun _ => (0 : ℝ)) 0 ienvOK).events
    ∧ (inverse_transform (fun _ => (0 : ℝ)) 0 ienvOK).vec = (fun _ => (0 : ℝ)) :=
  ⟨by decide, by decide, by decide, by decide, rfl⟩

/-- C8: on every error exit of `transform` (either allocation failing, or a
nonzero rfft status) and of `inverse_transform` (any of the three
allocations failing), the call returns that error status, releases every
scratch resource acquired so far (per-resource alloc/free counts in the
event list agree), and on the out-of-memory exits the caller's vector is
returned unmutated. -/
theorem error_paths_release_all (v : ℕ → ℝ) (len : ℕ) (fe : FwdEnv) (ie : InvEnv) :
    (fe.allocOut = false ∨ fe.allocIn = false →
        (transform v len fe).status = EIDSP_OUT_OF_MEM
          ∧ (transform v len fe).vec = v ∧ balanced (transform v len fe).events)
    ∧ (fe.allocOut = true → fe.allocIn = true → fe.rfftStatus ≠ 0 →
        (transform v len fe).status = fe.rfftStatus
          ∧ (transform v len fe).vec = v ∧ balanced (transform v len fe).events)
    ∧ (ie.allocOut = false ∨ ie.allocIn = false ∨ ie.allocCfg = false →
        (inverse_transform v len ie).status = EIDSP_OUT_OF_MEM
          ∧ (inverse_transform v len ie).vec = v
          ∧ balanced (inverse_transform v len ie).events) := by
  refine ⟨?_, ?_, ?_⟩
  · intro h
    cases hao : fe.allocOut with
    | false =>
        rw [transform_allocOut_fail v len fe hao]
        exact ⟨rfl, rfl, fun n => rfl⟩
    | true =>
        have hai : fe.allocIn = false := by
          rcases h with h | h
          · rw [hao] at h
            exact absurd h (by simp)
          · exact h
        rw [transform_allocIn_fail v len fe hao hai]
        exact ⟨rfl, rfl, fun n => by cases n <;> rfl⟩
  · intro hao hai hr
    rw [transform_rfft_fail v len fe hao hai hr]
    exact ⟨rfl, rfl, fun n => by cases n <;> rfl⟩
  · intro h
    cases hao : ie.allocOut with
    | false =>
        rw [inverse_allocOut_fail v len ie hao]
        exact ⟨rfl, rfl, fun n => rfl⟩
    | true =>
        cases hai : ie.allocIn with
        | false =>
            rw [inverse_allocIn_fail v len ie hao hai]
            exact ⟨rfl, rfl, fun n => by cases n <;> rfl⟩
        | true =>
            have hcfg : ie.allocCfg = false := by
              rcases h with h | h | h
              · rw [hao] at h
                exact absurd h (by simp)
              · rw [hai] at h
                exact absurd h (by simp)
              · exact h
            rw [inverse_allocCfg_fail v len ie hao hai hcfg]
            exact ⟨rfl, rfl, fun n => by cases n <;> rfl⟩

/-- C8 witness: the forward second-allocation failure and the inverse
configuration-allocation failure at `len = 2`. -/
theorem error_paths_release_all_witness :
    (transform (fun _ => (3 : ℝ)) 2 ⟨true, false, 0⟩).status = EIDSP_OUT_OF_MEM
    ∧ (transform (fun _ => (3 : ℝ)) 2 ⟨true, false, 0⟩).vec = (fun _ => (3 : ℝ))
    ∧ balanced (transform (fun _ => (3 : ℝ)) 2 ⟨true, false, 0⟩).events
    ∧ (inverse_transform (fun _ => (3 : ℝ)) 2 ⟨true, true, false⟩).status = EIDSP_OUT_OF_MEM
    ∧ (inverse_transform (fun _ => (3 : ℝ)) 2 ⟨true, true, false⟩).vec = (fun _ => (3 : ℝ))
    ∧ balanced (inverse_transform (fun _ => (3 : ℝ)) 2 ⟨true, true, false⟩).events := by
  have h1 := (error_paths_release_all (fun _ => (3 : ℝ)) 2 ⟨true, false, 0⟩
    ⟨true, true, false⟩).1 (Or.inr rfl)
  have h3 := (error_paths_release_all (fun _ => (3 : ℝ)) 2 ⟨true, false, 0⟩
    ⟨true, true, false⟩).2.2 (Or.inr (Or.inr rfl))
  exact ⟨h1.1, h1.2.1, h1.2.2, h3.1, h3.2.1, h3.2.2⟩

/-- C6: after the real FFT succeeds, `transform` sets `vector[i]` to
`Re(bin_i)*cos(i*pi/(2*len)) + Im(bin_i)*sin(i*pi/(2*len))` for every
`i <= len/2`, and this step writes no vector entry beyond the first
`len/2 + 1` ones (every write event's index is at most `len/2`, and every
later entry still holds its original value). -/
theorem transform_bin_combination (v : ℕ → ℝ) (len : ℕ) (env : FwdEnv)
    (h1 : env.allocOut = true) (h2 : env.allocIn = true) (h3 : env.rfftStatus = 0) :
    (∀ i, i ≤ len / 2 →
        (transform v len env).vec i
          = (rfftBin (fwdPreprocess v len) len i).1 * Real.cos (angle len i)
            + (rfftBin (fwdPreprocess v len) len i).2 * Real.sin (angle len i))
    ∧ (∀ e ∈ (transform v len env).events, ∀ i, e = Event.vecWriteEv i → i ≤ len / 2)
    ∧ (∀ i, len / 2 < i → (transform v len env).vec i = v i) := by
  refine ⟨?_, ?_, ?_⟩
  · intro i hi
    rw [transform_success_vec v len env h1 h2 h3 i, if_pos (show i < len / 2 + 1 by omega)]
    rfl
  · intro e he i hei
    subst hei
    rw [transform_success_events v len env h1 h2 h3] at he
    simp only [List.mem_append, List.mem_map, List.mem_range] at he
    rcases he with (he | ⟨a, ha, hea⟩) | he
    · simp at he
    · have : a = i := Event.vecWriteEv.inj hea
      omega
    · simp at he
  · intro i hi
    rw [transform_success_vec v len env h1 h2 h3 i, if_neg (show ¬ i < len / 2 + 1 by omega)]

/-- C6 witness: the combination read off at `len = 4`, `i = 2`, together
with the untouched entry at `i = 3`. -/
theorem transform_bin_combination_witness :
    (2 ≤ 4 / 2
      ∧ (transform (fun _ => (1 : ℝ)) 4 fenvOK).vec 2
          = (rfftBin (fwdPreprocess (fun _ => (1 : ℝ)) 4) 4 2).1 * Real.cos (angle 4 2)
            + (rfftBin (fwdPreprocess (fun _ => (1 : ℝ)) 4) 4 2).2 * Real.sin (angle 4 2))
    ∧ (4 / 2 < 3 ∧ (transform (fun _ => (1 : ℝ)) 4 fenvOK).vec 3 = (1 : ℝ)) :=
  ⟨⟨by decide,
    (transform_bin_combination (fun _ => (1 : ℝ)) 4 fenvOK rfl rfl rfl).1 2 (by decide)⟩,
   ⟨by decide,
    (transform_bin_combination (fun _ => (1 : ℝ)) 4 fenvOK rfl rfl rfl).2.2 3 (by decide)⟩⟩

/-- C7: after the complex FFT, `inverse_transform` rebuilds the caller's
vector by de-interleaving the real parts of the FFT output: for every
`i < len/2`, `vector[2i] = Re(out_i)` and `vector[2i+1] = Re(out_(len-1-i))`;
when `len` is odd, `vector[len-1] = Re(out_(len/2))`. -/
theorem inverse_deinterleave (v : ℕ → ℝ) (len : ℕ) (env : InvEnv)
    (h1 : env.allocOut = true) (h2 : env.allocIn = true) (h3 : env.allocCfg = true) :
    (∀ i, i < len / 2 →
        (inverse_transform v len env).vec (2 * i) = (invBins v len i).1
          ∧ (inverse_transform v len env).vec (2 * i + 1) = (invBins v len (len - 1 - i)).1)
    ∧ (len % 2 = 1 →
        (inverse_transform v len env).vec (len - 1) = (invBins v len (len / 2)).1) := by
  constructor
  · intro i hi
    constructor
    · rw [inverse_success_vec v len env h1 h2 h3 (2 * i),
          if_neg (show ¬ (len % 2 = 1 ∧ 2 * i = len - 1) by omega),
          if_pos (show 2 * i < 2 * (len / 2) by omega),
          if_pos (show (2 * i) % 2 = 0 by omega),
          show 2 * i / 2 = i by omega]
    · rw [inverse_success_vec v len env h1 h2 h3 (2 * i + 1),
          if_neg (show ¬ (len % 2 = 1 ∧ 2 * i + 1 = len - 1) by omega),
          if_pos (show 2 * i + 1 < 2 * (len / 2) by omega),
          if_neg (show ¬ (2 * i + 1) % 2 = 0 by omega),
          show (2 * i + 1) / 2 = i by omega]
  · intro hodd
    rw [inverse_success_vec v len env h1 h2 h3 (len - 1), if_pos ⟨hodd, rfl⟩]

/-- C7 witness: the de-interleaving read off at `len = 5`, pair `i = 1` and
the odd middle slot. -/
theorem inverse_deinterleave_witness :
    ((inverse_transform (fun _ => (1 : ℝ)) 5 ienvOK).vec 2
        = (invBins (fun _ => (1 : ℝ)) 5 1).1
      ∧ (inverse_transform (fun _ => (1 : ℝ)) 5 ienvOK).vec 3
          = (invBins (fun _ => (1 : ℝ)) 5 3).1)
    ∧ (inverse_transform (fun _ => (1 : ℝ)) 5 ienvOK).vec 4
        = (invBins (fun _ => (1 : ℝ)) 5 2).1 :=
  ⟨(inverse_deinterleave (fun _ => (1 : ℝ)) 5 ienvOK rfl rfl rfl).1 1 (by decide),
   (inverse_deinterleave (fun _ => (1 : ℝ)) 5 ienvOK rfl rfl rfl).2 (by decide)⟩

/-- At `len = 1` the forward transform is the identity on the single
sample. -/
lemma fwd1_vec0 (a : ℝ) : (transform (fun _ => a) 1 fenvOK).vec 0 = a := by
  rw [transform_success_vec _ 1 fenvOK rfl rfl rfl 0, if_pos (by norm_num)]
  have hpre0 : fwdPreprocess (fun _ => a) 1 0 = a := by
    unfold fwdPreprocess
    rw [if_pos (by norm_num : 1 % 2 = 1), upd_self]
  unfold fwdCoef rfftBin angle
  rw [Finset.sum_range_one, Finset.sum_range_one, hpre0]
  norm_num

/-- At `len = 1` the inverse transform halves the single coefficient. -/
lemma inv1_vec0 (w : ℕ → ℝ) : (inverse_transform w 1 ienvOK).vec 0 = w 0 / 2 := by
  rw [inverse_success_vec w 1 ienvOK rfl rfl rfl 0,
      if_pos (show 1 % 2 = 1 ∧ (0 : ℕ) = 1 - 1 from ⟨by norm_num, rfl⟩)]
  have hp : invPreprocess w 1 0 = (invHalved w 1 0 * Real.cos (angle 1 0), 0) := by
    unfold invPreprocess
    rw [invPre_loop_spec, if_pos (by norm_num : (0 : ℕ) < 1)]
  have hh : invHalved w 1 0 = w 0 / 2 := by
    unfold invHalved
    rw [if_pos (by norm_num : 0 < 1), upd_self]
  unfold invBins cfftBin
  rw [Finset.sum_range_one, hp, hh]
  unfold angle
  norm_num

/-- Round trip at `len = 1`: inverse after forward yields half the input. -/
lemma roundtrip1 (a : ℝ) :
    (inverse_transform (transform (fun _ => a) 1 fenvOK).vec 1 ienvOK).vec 0 = a / 2 := by
  rw [inv1_vec0, fwd1_vec0]

/-- Slot 0 of the interleaved FFT input at `len = 2`. -/
lemma fwdPre2_0 (a b : ℝ) : fwdPreprocess (v2 a b) 2 0 = a := by
  unfold fwdPreprocess
  rw [if_neg (by norm_num : ¬ 2 % 2 = 1),
      fwdPre_loop_spec (v2 a b) 2 (2 / 2) (le_refl _) 0,
      if_pos (by norm_num : (0 : ℕ) < 2 / 2)]
  simp [v2]

/-- Slot 1 of the interleaved FFT input at `len = 2`. -/
lemma fwdPre2_1 (a b : ℝ) : fwdPreprocess (v2 a b) 2 1 = b := by
  unfold fwdPreprocess
  rw [if_neg (by norm_num : ¬ 2 % 2 = 1),
      fwdPre_loop_spec (v2 a b) 2 (2 / 2) (le_refl _) 1,
      if_neg (by norm_num : ¬ (1 : ℕ) < 2 / 2),
      if_pos (show 2 - 2 / 2 ≤ 1 ∧ 1 < 2 by omega)]
  simp [v2]

/-- Forward transform at `len = 2`, slot 0: the sum of the two samples. -/
lemma fwd2_vec0 (a b : ℝ) : (transform (v2 a b) 2 fenvOK).vec 0 = a + b := by
  rw [transform_success_vec _ 2 fenvOK rfl rfl rfl 0, if_pos (by norm_num)]
  unfold fwdCoef rfftBin angle
  rw [Finset.sum_range_succ, Finset.sum_range_one,
      Finset.sum_range_succ, Finset.sum_range_one, fwdPre2_0, fwdPre2_1]
  norm_num

/-- Forward transform at `len = 2`, slot 1: the difference of the two
samples scaled by `cos(pi/4)`. -/
lemma fwd2_vec1 (a b : ℝ) :
    (transform (v2 a b) 2 fenvOK).vec 1 = (a - b) * (Real.sqrt 2 / 2) := by
  rw [transform_success_vec _ 2 fenvOK rfl rfl rfl 1, if_pos (by norm_num)]
  unfold fwdCoef rfftBin angle
  rw [Finset.sum_range_succ, Finset.sum_range_one,
      Finset.sum_range_succ, Finset.sum_range_one, fwdPre2_0, fwdPre2_1]
  norm_num
  ring

/-- Halving at `len = 2`, slot 0. -/
lemma invH2_0 (w : ℕ → ℝ) : invHalved w 2 0 = w 0 / 2 := by
  unfold invHalved
  rw [if_pos (by norm_num : 0 < 2), upd_self]

/-- Halving at `len = 2`, slot 1 is untouched. -/
lemma invH2_1 (w : ℕ → ℝ) : invHalved w 2 1 = w 1 := by
  unfold invHalved
  rw [if_pos (by norm_num : 0 < 2), upd_ne _ _ _ _ (show (1 : ℕ) ≠ 0 by norm_num)]

/-- Inverse transform at `len = 2`, slot 0. -/
lemma inv2_vec0 (w : ℕ → ℝ) :
    (inverse_transform w 2 ienvOK).vec 0 = w 0 / 2 + w 1 * (Real.sqrt 2 / 2) := by
  rw [inverse_success_vec w 2 ienvOK rfl rfl rfl 0,
      if_neg (show ¬ (2 % 2 = 1 ∧ (0 : ℕ) = 2 - 1) from fun hc => absurd hc.1 (by norm_num)),
      if_pos (show (0 : ℕ) < 2 * (2 / 2) by norm_num),
      if_pos (show (0 : ℕ) % 2 = 0 by norm_num)]
  have h0 : invPreprocess w 2 0 = (invHalved w 2 0 * Real.cos (angle 2 0), 0) := by
    unfold invPreprocess
    rw [invPre_loop_spec, if_pos (by norm_num : (0 : ℕ) < 2)]
  have h1 : invPreprocess w 2 1 = (invHalved w 2 1 * Real.cos (angle 2 1), 0) := by
    unfold invPreprocess
    rw [invPre_loop_spec, if_pos (by norm_num : (1 : ℕ) < 2)]
  unfold invBins cfftBin
  rw [Finset.sum_range_succ, Finset.sum_range_one, h0, h1, invH2_0, invH2_1]
  unfold angle
  norm_num

/-- Inverse transform at `len = 2`, slot 1. -/
lemma inv2_vec1 (w : ℕ → ℝ) :
    (inverse_transform w 2 ienvOK).vec 1 = w 0 / 2 - w 1 * (Real.sqrt 2 / 2) := by
  rw [inverse_success_vec w 2 ienvOK rfl rfl rfl 1,
      if_neg (show ¬ (2 % 2 = 1 ∧ (1 : ℕ) = 2 - 1) from fun hc => absurd hc.1 (by norm_num)),
      if_pos (show (1 : ℕ) < 2 * (2 / 2) by norm_num),
      if_neg (show ¬ (1 : ℕ) % 2 = 0 by norm_num)]
  have h0 : invPreprocess w 2 0 = (invHalved w 2 0 * Real.cos (angle 2 0), 0) := by
    unfold invPreprocess
    rw [invPre_loop_spec, if_pos (by norm_num : (0 : ℕ) < 2)]
  have h1 : invPreprocess w 2 1 = (invHalved w 2 1 * Real.cos (angle 2 1), 0) := by
    unfold invPreprocess
    rw [invPre_loop_spec, if_pos (by norm_num : (1 : ℕ) < 2)]
  unfold invBins cfftBin
  rw [Finset.sum_range_succ, Finset.sum_range_one, h0, h1, invH2_0, invH2_1]
  unfold angle
  norm_num
  ring

/-- Round trip at `len = 2`, slot 0. -/
lemma roundtrip2_vec0 (a b : ℝ) :
    (inverse_transform (transform (v2 a b) 2 fenvOK).vec 2 ienvOK).vec 0 = a := by
  rw [inv2_vec0, fwd2_vec0, fwd2_vec1]
  have h2 : Real.sqrt 2 * Real.sqrt 2 = 2 := Real.mul_self_sqrt (by norm_num)
  linear_combination ((a - b) / 4) * h2

/-- Round trip at `len = 2`, slot 1. -/
lemma roundtrip2_vec1 (a b : ℝ) :
    (inverse_transform (transform (v2 a b) 2 fenvOK).vec 2 ienvOK).vec 1 = b := by
  rw [inv2_vec1, fwd2_vec0, fwd2_vec1]
  have h2 : Real.sqrt 2 * Real.sqrt 2 = 2 := Real.mul_self_sqrt (by norm_num)
  linear_combination (-(a - b) / 4) * h2

/-- C1 counterexample: at `len = 1` with input vector `[1]`, the inverse of
the forward transform divided by the claimed constant `2*len = 2` gives
`1/4`, not the original sample `1`. -/
theorem roundtrip_scale_2N_fails :
    (inverse_transform (transform (fun _ => (1 : ℝ)) 1 fenvOK).vec 1 ienvOK).vec 0 / (2 * 1)
      ≠ (1 : ℝ) := by
  rw [roundtrip1]
  norm_num

/-- C1 (amended): the inverse transform applied to the forward transform
recovers the input scaled by `len/2` (not `2*len`); this holds for
`len = 1` and `len = 2` — for `len ≥ 3` the round trip fails altogether
because the forward transform populates only the first `len/2 + 1`
entries. -/
theorem roundtrip_scale_halfN_small (a b : ℝ) :
    (inverse_transform (transform (fun _ => a) 1 fenvOK).vec 1 ienvOK).vec 0
        = ((1 : ℝ) / 2) * a
    ∧ (inverse_transform (transform (v2 a b) 2 fenvOK).vec 2 ienvOK).vec 0
        = ((2 : ℝ) / 2) * v2 a b 0
    ∧ (inverse_transform (transform (v2 a b) 2 fenvOK).vec 2 ienvOK).vec 1
        = ((2 : ℝ) / 2) * v2 a b 1 := by
  refine ⟨?_, ?_, ?_⟩
  · rw [roundtrip1]
    ring
  · rw [roundtrip2_vec0]
    norm_num [v2]
  · rw [roundtrip2_vec1]
    norm_num [v2]

/-- C2 (amended): after `transform` returns success, only the first
`len/2 + 1` entries of the caller's vector have been updated; every entry
with index above `len/2` still holds its pre-call value, so for `len ≥ 3`
the vector does not hold the full length-`len` DCT-II result. -/
theorem transform_tail_untouched (v : ℕ → ℝ) (len : ℕ) (env : FwdEnv)
    (h1 : env.allocOut = true) (h2 : env.allocIn = true) (h3 : env.rfftStatus = 0)
    (i : ℕ) (hi : len / 2 < i) :
    (transform v len env).vec i = v i := by
  rw [transform_success_vec v len env h1 h2 h3 i, if_neg (show ¬ i < len / 2 + 1 by omega)]

/-- C2 witness: at `len = 3` the entry at index 2 of the constant-5 vector
is returned unchanged. -/
theorem transform_tail_untouched_witness :
    3 / 2 < 2 ∧ (transform (fun _ => (5 : ℝ)) 3 fenvOK).vec 2 = (5 : ℝ) :=
  ⟨by decide, transform_tail_untouched (fun _ => (5 : ℝ)) 3 fenvOK rfl rfl rfl 2 (by decide)⟩

/-- C2 counterexample: for the length-3 impulse input `[0, 1, 0]`,
`transform` returns success but entry 2 of the vector (never written, it
keeps the original `0`) differs from the unscaled DCT-II coefficient
`dct2Ref = cos(pi) = -1` required by the claim, so the full length-3 DCT-II
result is not populated. -/
theorem transform_not_full_dct2 :
    (transform (fun n : ℕ => if n = 1 then (1 : ℝ) else 0) 3 fenvOK).status = 0
    ∧ (transform (fun n : ℕ => if n = 1 then (1 : ℝ) else 0) 3 fenvOK).vec 2
        ≠ dct2Ref (fun n : ℕ => if n = 1 then (1 : ℝ) else 0) 3 2 := by
  constructor
  · decide
  · rw [transform_success_vec _ 3 fenvOK rfl rfl rfl 2,
        if_neg (show ¬ 2 < 3 / 2 + 1 by norm_num)]
    have hd : dct2Ref (fun n : ℕ => if n = 1 then (1 : ℝ) else 0) 3 2 = -1 := by
      unfold dct2Ref
      rw [Finset.sum_range_succ, Finset.sum_range_succ, Finset.sum_range_one]
      norm_num
      rw [show (Real.pi / 3 * (3 / 2) * 2 : ℝ) = Real.pi by ring, Real.cos_pi]
    rw [hd]
    norm_num

end EiDct
